import Mathlib

/-!
Verification development for the hexham pathfinding visualizer.

The program is embedded shallowly:
* `getNeighbors`, `heuristic` model `src/hex-utils.js`,
* `GridState`, `setHexType`, `clearPathfinding`, `clearGrid` model `src/grid.js`
  (JS `Map`s with string keys `"col,row"` are modelled as association lists keyed
  by the `Coord` pair itself, which is in bijection with the string keys;
  `jget`/`jset`/`jdel`/`jhas` mirror `Map.get/set/delete/has`, preserving the
  insertion order semantics of JS maps),
* `runPathfinding` models `src/pathfinding.js` (the cooperative cancellation flag
  is modelled by the boolean stream `cancel`, giving the value observed by the
  `i`-th `maybeYield` call; loops carry explicit fuel and return `none` on fuel
  exhaustion, and we prove the fuel always suffices),
* the map generators model `src/map-generators.js` (each `Math.random()` draw is
  an arbitrary value of a universally quantified stream).
-/

namespace Hexham

/-! ### Constants (src/constants.js) -/

def GRID_WIDTH : Nat := 100
def GRID_HEIGHT : Nat := 100

/-! ### Coordinates -/

/-- A grid coordinate `(col, row)`; identity is value equality. -/
structure Coord where
  col : Nat
  row : Nat
deriving DecidableEq, Repr

def inBounds (c : Coord) : Prop := c.col < GRID_WIDTH ∧ c.row < GRID_HEIGHT

instance : DecidablePred inBounds := fun c => by unfold inBounds; infer_instance

/-! ### JS `Map` / `Set` operations as association-list operations -/

def jget {α β : Type} [DecidableEq α] : List (α × β) → α → Option β
  | [], _ => none
  | e :: rest, k => if e.1 = k then some e.2 else jget rest k

def jhas {α β : Type} [DecidableEq α] (m : List (α × β)) (k : α) : Bool :=
  (jget m k).isSome

/-- `Map.set`: updates an existing key in place, else appends (JS insertion order). -/
def jset {α β : Type} [DecidableEq α] : List (α × β) → α → β → List (α × β)
  | [], k, v => [(k, v)]
  | e :: rest, k, v => if e.1 = k then (k, v) :: rest else e :: jset rest k v

/-- `Map.delete`: removes the entry for the key. -/
def jdel {α β : Type} [DecidableEq α] (m : List (α × β)) (k : α) : List (α × β) :=
  m.filter fun e => decide (e.1 ≠ k)

/-- `Set.add`: appends if not already present. -/
def jadd {α : Type} [DecidableEq α] (s : List α) (a : α) : List α :=
  if a ∈ s then s else s ++ [a]

/-! ### Hex geometry (src/hex-utils.js) -/

def evenRowOffsets : List (Int × Int) :=
  [(1, 0), (0, -1), (-1, -1), (-1, 0), (-1, 1), (0, 1)]

def oddRowOffsets : List (Int × Int) :=
  [(1, 0), (1, -1), (0, -1), (-1, 0), (0, 1), (1, 1)]

/-- `getNeighbors(col, row)`: the up-to-six adjacent cells, bounds-filtered. -/
def getNeighbors (col row : Nat) : List Coord :=
  let offsets := if row % 2 = 0 then evenRowOffsets else oddRowOffsets
  offsets.filterMap fun d =>
    let nc : Int := (col : Int) + d.1
    let nr : Int := (row : Int) + d.2
    if 0 ≤ nc ∧ nc < (GRID_WIDTH : Int) ∧ 0 ≤ nr ∧ nr < (GRID_HEIGHT : Int) then
      some ⟨nc.toNat, nr.toNat⟩
    else none

/-- `heuristic(col1, row1, col2, row2)`: exact hex (cube) distance.  The JS
division `(row - (row & 1)) / 2` and the final `/ 2` are exact, so the result
is a natural number. -/
def heuristic (col1 row1 col2 row2 : Nat) : Nat :=
  let x1 : Int := (col1 : Int) - ((row1 : Int) - (row1 : Int) % 2) / 2
  let z1 : Int := (row1 : Int)
  let y1 : Int := -x1 - z1
  let x2 : Int := (col2 : Int) - ((row2 : Int) - (row2 : Int) % 2) / 2
  let z2 : Int := (row2 : Int)
  let y2 : Int := -x2 - z2
  ((x1 - x2).natAbs + (y1 - y2).natAbs + (z1 - z2).natAbs) / 2
/-- Hex adjacency: `b` is one of `a`'s neighbor cells. -/
def adJ (a b : Coord) : Prop := b ∈ getNeighbors a.col a.row

instance : ∀ a b, Decidable (adJ a b) := fun a b => by unfold adJ; infer_instance

inductive Tile
  | standard
  | wall
  | start
  | «end»
deriving DecidableEq, Repr

/-- `getHexKey(col, row)`: the JS string key is modelled by the coordinate pair
itself (the map `"col,row" ↦ (col, row)` is a bijection on naturals). -/
def getHexKey (col row : Nat) : Coord := ⟨col, row⟩

/-- The whole mutable state of `grid.js` (grid map, start/end references, and
the pathfinding run state). -/
structure GridState where
  grid : List (Coord × Tile)
  startHex : Option Coord
  endHex : Option Coord
  visitedHexes : List (Coord × Nat)
  pathHexes : List Coord
  isSearching : Bool
  maxVisitOrder : Nat
deriving DecidableEq, Repr

instance : Inhabited GridState := ⟨⟨[], none, none, [], [], false, 0⟩⟩

/-- The initial module state of `grid.js`. -/
def initState : GridState := ⟨[], none, none, [], [], false, 0⟩

/-- `getHexType`: defaults to `'standard'` for absent keys. -/
def getHexType (s : GridState) (col row : Nat) : Tile :=
  (jget s.grid (getHexKey col row)).getD .standard

def clearPathfinding (s : GridState) : GridState :=
  { s with visitedHexes := [], pathHexes := [], isSearching := false, maxVisitOrder := 0 }

def clearGrid (_s : GridState) : GridState :=
  clearPathfinding { _s with grid := [], startHex := none, endHex := none }

/-- `setHexType(col, row, type)` from `grid.js`; the `onGridChange` callback is
external to the core and has no effect on this state. -/
def setHexType (s : GridState) (col row : Nat) (type : Tile) : GridState :=
  let key := getHexKey col row
  -- Handle unique start/end nodes
  let s1 : GridState :=
    if type = Tile.start then
      { s with
        grid := (match s.startHex with
          | some p => jdel s.grid (getHexKey p.col p.row)
          | none => s.grid),
        startHex := some ⟨col, row⟩ }
    else if type = Tile.«end» then
      { s with
        grid := (match s.endHex with
          | some p => jdel s.grid (getHexKey p.col p.row)
          | none => s.grid),
        endHex := some ⟨col, row⟩ }
    else s
  -- Clear start/end reference if overwriting
  let s2 : GridState :=
    if s1.startHex.any (fun p => p.col == col && p.row == row) && !(type == Tile.start)
    then { s1 with startHex := none } else s1
  let s3 : GridState :=
    if s2.endHex.any (fun p => p.col == col && p.row == row) && !(type == Tile.«end»)
    then { s2 with endHex := none } else s2
  let s4 : GridState :=
    if type = Tile.standard then { s3 with grid := jdel s3.grid key }
    else { s3 with grid := jset s3.grid key type }
  clearPathfinding s4

/-! ### Association-list lemmas -/

/-! ### The search engine (src/pathfinding.js)

`runPathfinding` executes one of the four algorithms.  The cooperative
cancellation flag read by the `i`-th `maybeYield` call is modelled by
`cancel i` (the flag is set externally between yields, so each observation is
an arbitrary boolean).  The speed/yield pacing only affects timing, not the
core state.  The `while` loops are modelled with explicit fuel: `none` means
the fuel ran out (we prove `LOOP_FUEL` always suffices). -/

inductive Algorithm
  | bfs
  | dfs
  | astar
  | greedy
deriving DecidableEq, Repr

/-- Tile classification used by the search (`getHexType` on a raw grid). -/
def tileAt (g : List (Coord × Tile)) (c : Coord) : Tile :=
  (jget g c).getD .standard

/-- The run-local bookkeeping shared by the four algorithm loops:
`cameFrom`, the `visitedHexes` writes, `stepCount`, `maxVisitOrder`, `found`. -/
structure RunResult where
  cameFrom : List (Coord × Option Coord)
  visited : List (Coord × Nat)
  stepCount : Nat
  maxVisit : Nat
  found : Bool
deriving DecidableEq, Repr

/-- The neighbor expansion of the BFS branch. -/
def bfsExpand (g : List (Coord × Tile)) (currentKey : Coord) :
    List Coord → List (Coord × Option Coord) → List Coord →
    List (Coord × Option Coord) × List Coord
  | [], cameFrom, queue => (cameFrom, queue)
  | neighbor :: rest, cameFrom, queue =>
    let neighborKey := getHexKey neighbor.col neighbor.row
    if jhas cameFrom neighborKey then bfsExpand g currentKey rest cameFrom queue
    else if tileAt g neighborKey = Tile.wall then bfsExpand g currentKey rest cameFrom queue
    else bfsExpand g currentKey rest (jset cameFrom neighborKey (some currentKey))
      (queue ++ [neighbor])

/-- The BFS `while` loop.  The queue head is the front (`shift` pops it,
`push` appends). -/
def bfsLoop (g : List (Coord × Tile)) (endKey : Coord) (cancel : Nat → Bool) :
    Nat → List Coord → RunResult → Option RunResult
  | 0, _, _ => none
  | _ + 1, [], rr => some rr
  | fuel + 1, current :: rest, rr =>
    let currentKey := getHexKey current.col current.row
    let rr' : RunResult := { rr with
      visited := jset rr.visited currentKey rr.stepCount,
      maxVisit := rr.stepCount,
      stepCount := rr.stepCount + 1 }
    if cancel rr.stepCount then some rr'
    else if currentKey = endKey then some { rr' with found := true }
    else
      let ex := bfsExpand g currentKey (getNeighbors current.col current.row) rr'.cameFrom rest
      bfsLoop g endKey cancel fuel ex.2 { rr' with cameFrom := ex.1 }

/-- The neighbor expansion of the DFS branch.  JS pushes to the array end and
pops from the end; we keep the stack top at the list head, so a JS `push` is a
`cons` and the iteration order is preserved. -/
def dfsExpand (g : List (Coord × Tile)) (currentKey : Coord)
    (visited : List (Coord × Nat)) :
    List Coord → List (Coord × Option Coord) → List Coord →
    List (Coord × Option Coord) × List Coord
  | [], cameFrom, stack => (cameFrom, stack)
  | neighbor :: rest, cameFrom, stack =>
    let neighborKey := getHexKey neighbor.col neighbor.row
    if jhas visited neighborKey then dfsExpand g currentKey visited rest cameFrom stack
    else if tileAt g neighborKey = Tile.wall then
      dfsExpand g currentKey visited rest cameFrom stack
    else
      let cameFrom' := if jhas cameFrom neighborKey then cameFrom
        else jset cameFrom neighborKey (some currentKey)
      dfsExpand g currentKey visited rest cameFrom' (neighbor :: stack)

/-- The DFS `while` loop (stack top at the head). -/
def dfsLoop (g : List (Coord × Tile)) (endKey : Coord) (cancel : Nat → Bool) :
    Nat → List Coord → RunResult → Option RunResult
  | 0, _, _ => none
  | _ + 1, [], rr => some rr
  | fuel + 1, current :: rest, rr =>
    let currentKey := getHexKey current.col current.row
    if jhas rr.visited currentKey then dfsLoop g endKey cancel fuel rest rr
    else
      let rr' : RunResult := { rr with
        visited := jset rr.visited currentKey rr.stepCount,
        maxVisit := rr.stepCount,
        stepCount := rr.stepCount + 1 }
      if cancel rr.stepCount then some rr'
      else if currentKey = endKey then some { rr' with found := true }
      else
        let ex := dfsExpand g currentKey rr'.visited (getNeighbors current.col current.row)
          rr'.cameFrom rest
        dfsLoop g endKey cancel fuel ex.2 { rr' with cameFrom := ex.1 }

/-- `fScore.get(key) || Infinity`: an absent value — and, by JS falsiness, an
exact score of `0` — reads as `Infinity` (`none`). -/
def fVal (fScore : List (Coord × Nat)) (c : Coord) : Option Nat :=
  match jget fScore (getHexKey c.col c.row) with
  | some v => if v = 0 then none else some v
  | none => none

/-- The comparator `fA - fB` as a total boolean order (`none` = `Infinity`;
`Infinity - Infinity` is `NaN`, which JS sorting treats as "equal", matching
`fLe a b = fLe b a = true`).  JS `Array.prototype.sort` is stable, and a stable
sort with a total preorder has a unique result, so the sort is modelled by a
stable insertion sort with this order. -/
def fLe (fScore : List (Coord × Nat)) (a b : Coord) : Bool :=
  match fVal fScore a, fVal fScore b with
  | some x, some y => x ≤ y
  | some _, none => true
  | none, some _ => false
  | none, none => true

/-- `openSet.sort((a, b) => fA - fB)`: the unique stable sort by `f`. -/
def sortByF (fScore : List (Coord × Nat)) (l : List Coord) : List Coord :=
  List.insertionSort (fun a b => fLe fScore a b = true) l

/-- The neighbor expansion of the A* branch. -/
def astarExpand (g : List (Coord × Tile)) (endHex : Coord) (currentKey : Coord)
    (currentG : Nat) (visited : List (Coord × Nat)) :
    List Coord → List (Coord × Option Coord) → List (Coord × Nat) →
    List (Coord × Nat) → List Coord →
    List (Coord × Option Coord) × List (Coord × Nat) × List (Coord × Nat) × List Coord
  | [], cameFrom, gScore, fScore, openSet => (cameFrom, gScore, fScore, openSet)
  | neighbor :: rest, cameFrom, gScore, fScore, openSet =>
    let neighborKey := getHexKey neighbor.col neighbor.row
    if jhas visited neighborKey then
      astarExpand g endHex currentKey currentG visited rest cameFrom gScore fScore openSet
    else if tileAt g neighborKey = Tile.wall then
      astarExpand g endHex currentKey currentG visited rest cameFrom gScore fScore openSet
    else
      let tentativeG := currentG + 1
      let better := match jget gScore neighborKey with
        | none => true
        | some gv => decide (tentativeG < gv)
      if better then
        astarExpand g endHex currentKey currentG visited rest
          (jset cameFrom neighborKey (some currentKey))
          (jset gScore neighborKey tentativeG)
          (jset fScore neighborKey
            (tentativeG + heuristic neighbor.col neighbor.row endHex.col endHex.row))
          (openSet ++ [neighbor])
      else
        astarExpand g endHex currentKey currentG visited rest cameFrom gScore fScore openSet

/-- The A* `while` loop: sort by `f` (stable), shift the head.
`gScore.get(currentKey)` is always present when read; the `.getD 0` default is
never exercised. -/
def astarLoop (g : List (Coord × Tile)) (endHex endKey : Coord) (cancel : Nat → Bool) :
    Nat → List Coord → List (Coord × Nat) → List (Coord × Nat) → RunResult →
    Option RunResult
  | 0, _, _, _, _ => none
  | fuel + 1, openSet, gScore, fScore, rr =>
    match sortByF fScore openSet with
    | [] => some rr
    | current :: rest =>
      let currentKey := getHexKey current.col current.row
      if jhas rr.visited currentKey then astarLoop g endHex endKey cancel fuel rest gScore fScore rr
      else
        let rr' : RunResult := { rr with
          visited := jset rr.visited currentKey rr.stepCount,
          maxVisit := rr.stepCount,
          stepCount := rr.stepCount + 1 }
        if cancel rr.stepCount then some rr'
        else if currentKey = endKey then some { rr' with found := true }
        else
          let currentG := (jget gScore currentKey).getD 0
          let ex := astarExpand g endHex currentKey currentG rr'.visited
            (getNeighbors current.col current.row) rr'.cameFrom gScore fScore rest
          astarLoop g endHex endKey cancel fuel ex.2.2.2 ex.2.1 ex.2.2.1
            { rr' with cameFrom := ex.1 }

/-- The comparator `hA - hB` of the greedy branch (total, no `Infinity`). -/
def greedyLe (endCol endRow : Nat) (a b : Coord) : Bool :=
  heuristic a.col a.row endCol endRow ≤ heuristic b.col b.row endCol endRow

/-- `openSet.sort((a, b) => hA - hB)`: the unique stable sort by `h`. -/
def sortByH (endCol endRow : Nat) (l : List Coord) : List Coord :=
  List.insertionSort (fun a b => greedyLe endCol endRow a b = true) l

/-- The neighbor expansion of the greedy branch. -/
def greedyExpand (g : List (Coord × Tile)) (currentKey : Coord)
    (visited : List (Coord × Nat)) :
    List Coord → List (Coord × Option Coord) → List Coord →
    List (Coord × Option Coord) × List Coord
  | [], cameFrom, openSet => (cameFrom, openSet)
  | neighbor :: rest, cameFrom, openSet =>
    let neighborKey := getHexKey neighbor.col neighbor.row
    if jhas visited neighborKey then greedyExpand g currentKey visited rest cameFrom openSet
    else if tileAt g neighborKey = Tile.wall then
      greedyExpand g currentKey visited rest cameFrom openSet
    else if jhas cameFrom neighborKey then
      greedyExpand g currentKey visited rest cameFrom openSet
    else
      greedyExpand g currentKey visited rest (jset cameFrom neighborKey (some currentKey))
        (openSet ++ [neighbor])

/-- The greedy best-first `while` loop: sort by `h` (stable), shift the head. -/
def greedyLoop (g : List (Coord × Tile)) (endHex endKey : Coord) (cancel : Nat → Bool) :
    Nat → List Coord → RunResult → Option RunResult
  | 0, _, _ => none
  | fuel + 1, openSet, rr =>
    match sortByH endHex.col endHex.row openSet with
    | [] => some rr
    | current :: rest =>
      let currentKey := getHexKey current.col current.row
      if jhas rr.visited currentKey then greedyLoop g endHex endKey cancel fuel rest rr
      else
        let rr' : RunResult := { rr with
          visited := jset rr.visited currentKey rr.stepCount,
          maxVisit := rr.stepCount,
          stepCount := rr.stepCount + 1 }
        if cancel rr.stepCount then some rr'
        else if currentKey = endKey then some { rr' with found := true }
        else
          let ex := greedyExpand g currentKey rr'.visited
            (getNeighbors current.col current.row) rr'.cameFrom rest
          greedyLoop g endHex endKey cancel fuel ex.2 { rr' with cameFrom := ex.1 }

/-- Path reconstruction: walk `cameFrom` backwards from `endKey`, adding every
key to the path set.  A missing `cameFrom` entry makes the JS `while` loop spin
forever on `undefined`; that is modelled as `none` (and proved unreachable). -/
def walkPath (cameFrom : List (Coord × Option Coord)) :
    Nat → Coord → List Coord → Option (List Coord)
  | 0, _, _ => none
  | fuel + 1, currentKey, acc =>
    let acc' := jadd acc currentKey
    match jget cameFrom currentKey with
    | none => none
    | some none => some acc'
    | some (some prev) => walkPath cameFrom fuel prev acc'

/-- Fuel that always suffices for the four loops (proved below): each
iteration pops one frontier entry, and at most `1 + 6·10000` entries are ever
pushed. -/
def LOOP_FUEL : Nat := 100000

/-- The algorithm dispatch of `runPathfinding`: initial frontier `[startHex]`,
`cameFrom = {startKey ↦ null}`, counters zero. -/
def runAlgorithm (alg : Algorithm) (cancel : Nat → Bool) (g : List (Coord × Tile))
    (startHex endHex : Coord) : Option RunResult :=
  let startKey := getHexKey startHex.col startHex.row
  let endKey := getHexKey endHex.col endHex.row
  let rr0 : RunResult := ⟨[(startKey, none)], [], 0, 0, false⟩
  match alg with
  | .bfs => bfsLoop g endKey cancel LOOP_FUEL [startHex] rr0
  | .dfs => dfsLoop g endKey cancel LOOP_FUEL [startHex] rr0
  | .astar => astarLoop g endHex endKey cancel LOOP_FUEL [startHex]
      [(startKey, 0)]
      [(startKey, heuristic startHex.col startHex.row endHex.col endHex.row)] rr0
  | .greedy => greedyLoop g endHex endKey cancel LOOP_FUEL [startHex] rr0

/-- `runPathfinding(algorithm, draw, updateGoButton)`: the two callbacks are
external and do not touch the core state. -/
def runPathfinding (alg : Algorithm) (cancel : Nat → Bool) (s : GridState) :
    Option GridState :=
  match s.startHex, s.endHex with
  | some startHex, some endHex =>
    let s1 := { clearPathfinding s with isSearching := true }
    match runAlgorithm alg cancel s1.grid startHex endHex with
    | none => none
    | some rr =>
      let s2 := { s1 with visitedHexes := rr.visited, maxVisitOrder := rr.maxVisit }
      if rr.found then
        match walkPath rr.cameFrom (rr.cameFrom.length + 1)
            (getHexKey endHex.col endHex.row) [] with
        | none => none
        | some ph => some { s2 with pathHexes := ph, isSearching := false }
      else
        some { s2 with isSearching := false }
  | _, _ => some s

/-! ### Start/end reference invariant (§3 of the spec) -/

/-- The data-model invariant: the stored start/end reference names the unique
cell classified `start`/`end`, or is `none` when no such cell exists. -/
structure SEInv (s : GridState) : Prop where
  startRef : ∀ q, s.startHex = some q → jget s.grid q = some Tile.start
  startUnique : ∀ k, jget s.grid k = some Tile.start → s.startHex = some k
  endRef : ∀ q, s.endHex = some q → jget s.grid q = some Tile.«end»
  endUnique : ∀ k, jget s.grid k = some Tile.«end» → s.endHex = some k


/-! ### Invariants and witness fixtures -/

/-- The run-state bookkeeping invariant behind C3: the visited map lists the
visit orders `0, 1, ..., n-1` in insertion order, keys never repeat, and the
counters agree. -/
def VisitInv (rr : RunResult) : Prop :=
  rr.visited.map Prod.snd = List.range rr.visited.length ∧
  rr.stepCount = rr.visited.length ∧
  (rr.visited.map Prod.fst).Nodup ∧
  rr.maxVisit = rr.visited.length - 1

/-- The BFS loop invariant: run bookkeeping plus "visited keys and queued
coordinates are pairwise distinct and all known to `cameFrom`". -/
def BfsInv (rr : RunResult) (queue : List Coord) : Prop :=
  VisitInv rr ∧
  (rr.visited.map Prod.fst ++ queue).Nodup ∧
  (∀ k ∈ rr.visited.map Prod.fst, jhas rr.cameFrom k = true) ∧
  (∀ c ∈ queue, jhas rr.cameFrom c = true)

/-- A tiny concrete state with adjacent start and end, used by witnesses. -/
def wState : GridState :=
  { grid := [(⟨0, 0⟩, Tile.start), (⟨0, 1⟩, Tile.«end»)],
    startHex := some ⟨0, 0⟩, endHex := some ⟨0, 1⟩,
    visitedHexes := [], pathHexes := [], isSearching := false, maxVisitOrder := 0 }

def wRunOut : GridState := (runPathfinding .bfs (fun _ => false) wState).getD default

def wCancelOut : GridState := (runPathfinding .bfs (fun _ => true) wState).getD default

/-! ## Theorems -/

/-! ### Characterization of `getNeighbors` membership -/

set_option maxHeartbeats 2000000 in
/-- Membership in `getNeighbors` as a parity-split list of offset equations
(stated over `Nat` without subtraction, to be `omega`-friendly). -/
theorem mem_getNeighbors_iff {a b : Coord} :
    b ∈ getNeighbors a.col a.row ↔
      b.col < GRID_WIDTH ∧ b.row < GRID_HEIGHT ∧
      ((a.row % 2 = 0 ∧
        ((b.col = a.col + 1 ∧ b.row = a.row) ∨
         (b.col = a.col ∧ b.row + 1 = a.row) ∨
         (b.col + 1 = a.col ∧ b.row + 1 = a.row) ∨
         (b.col + 1 = a.col ∧ b.row = a.row) ∨
         (b.col + 1 = a.col ∧ b.row = a.row + 1) ∨
         (b.col = a.col ∧ b.row = a.row + 1))) ∨
       (a.row % 2 = 1 ∧
        ((b.col = a.col + 1 ∧ b.row = a.row) ∨
         (b.col = a.col + 1 ∧ b.row + 1 = a.row) ∨
         (b.col = a.col ∧ b.row + 1 = a.row) ∨
         (b.col + 1 = a.col ∧ b.row = a.row) ∨
         (b.col = a.col ∧ b.row = a.row + 1) ∨
         (b.col = a.col + 1 ∧ b.row = a.row + 1)))) := by
  obtain ⟨bc, br⟩ := b
  have key : ∀ (d : Int × Int), ((if 0 ≤ (a.col : Int) + d.1 ∧ (a.col : Int) + d.1 < (GRID_WIDTH : Int) ∧
        0 ≤ (a.row : Int) + d.2 ∧ (a.row : Int) + d.2 < (GRID_HEIGHT : Int) then
        some (⟨((a.col : Int) + d.1).toNat, ((a.row : Int) + d.2).toNat⟩ : Coord)
      else none) = some ⟨bc, br⟩) ↔
      (0 ≤ (a.col : Int) + d.1 ∧ (a.col : Int) + d.1 < (GRID_WIDTH : Int) ∧
        0 ≤ (a.row : Int) + d.2 ∧ (a.row : Int) + d.2 < (GRID_HEIGHT : Int) ∧
        ((a.col : Int) + d.1).toNat = bc ∧ ((a.row : Int) + d.2).toNat = br) := by
    intro d
    split
    · rename_i hcond
      simp only [Option.some.injEq, Coord.mk.injEq]
      constructor
      · rintro ⟨h1, h2⟩; exact ⟨hcond.1, hcond.2.1, hcond.2.2.1, hcond.2.2.2, h1, h2⟩
      · rintro ⟨_, _, _, _, h1, h2⟩; exact ⟨h1, h2⟩
    · rename_i hcond
      simp only [reduceCtorEq, false_iff]
      intro hc
      exact hcond ⟨hc.1, hc.2.1, hc.2.2.1, hc.2.2.2.1⟩
  by_cases hp : a.row % 2 = 0
  · simp only [getNeighbors]
    rw [if_pos hp]
    simp only [List.mem_filterMap, evenRowOffsets,
      List.mem_cons, List.not_mem_nil, or_false]
    constructor
    · rintro ⟨d, hd, heq⟩
      rw [key] at heq
      rcases hd with h | h | h | h | h | h <;> subst h <;>
        (refine ⟨by omega, by omega, Or.inl ⟨hp, ?_⟩⟩; omega)
    · rintro ⟨hw, hh, h⟩
      have h' : (bc = a.col + 1 ∧ br = a.row) ∨ (bc = a.col ∧ br + 1 = a.row) ∨
          (bc + 1 = a.col ∧ br + 1 = a.row) ∨ (bc + 1 = a.col ∧ br = a.row) ∨
          (bc + 1 = a.col ∧ br = a.row + 1) ∨ (bc = a.col ∧ br = a.row + 1) := by
        rcases h with ⟨_, h⟩ | ⟨ho, _⟩
        · exact h
        · omega
      rcases h' with h | h | h | h | h | h
      · exact ⟨(1, 0), by simp, (key _).mpr (by omega)⟩
      · exact ⟨(0, -1), by simp, (key _).mpr (by omega)⟩
      · exact ⟨(-1, -1), by simp, (key _).mpr (by omega)⟩
      · exact ⟨(-1, 0), by simp, (key _).mpr (by omega)⟩
      · exact ⟨(-1, 1), by simp, (key _).mpr (by omega)⟩
      · exact ⟨(0, 1), by simp, (key _).mpr (by omega)⟩
  · simp only [getNeighbors]
    rw [if_neg hp]
    simp only [List.mem_filterMap, oddRowOffsets,
      List.mem_cons, List.not_mem_nil, or_false]
    constructor
    · rintro ⟨d, hd, heq⟩
      rw [key] at heq
      rcases hd with h | h | h | h | h | h <;> subst h <;>
        (refine ⟨by omega, by omega, Or.inr ⟨by omega, ?_⟩⟩; omega)
    · rintro ⟨hw, hh, h⟩
      have h' : (bc = a.col + 1 ∧ br = a.row) ∨ (bc = a.col + 1 ∧ br + 1 = a.row) ∨
          (bc = a.col ∧ br + 1 = a.row) ∨ (bc + 1 = a.col ∧ br = a.row) ∨
          (bc = a.col ∧ br = a.row + 1) ∨ (bc = a.col + 1 ∧ br = a.row + 1) := by
        rcases h with ⟨he, _⟩ | ⟨_, h⟩
        · omega
        · exact h
      rcases h' with h | h | h | h | h | h
      · exact ⟨(1, 0), by simp, (key _).mpr (by omega)⟩
      · exact ⟨(1, -1), by simp, (key _).mpr (by omega)⟩
      · exact ⟨(0, -1), by simp, (key _).mpr (by omega)⟩
      · exact ⟨(-1, 0), by simp, (key _).mpr (by omega)⟩
      · exact ⟨(0, 1), by simp, (key _).mpr (by omega)⟩
      · exact ⟨(1, 1), by simp, (key _).mpr (by omega)⟩

theorem getNeighbors_inBounds {a b : Coord} (h : b ∈ getNeighbors a.col a.row) :
    inBounds b := by
  rw [mem_getNeighbors_iff] at h
  exact ⟨h.1, h.2.1⟩
/-! ### Heuristic facts -/

theorem heuristic_self (c r : Nat) : heuristic c r c r = 0 := by
  simp only [heuristic]
  omega

/-- The cube x-coordinate used inside `heuristic`. -/
def cubeX (col row : Nat) : Int := (col : Int) - ((row : Int) - (row : Int) % 2) / 2

/-- Cube distance as a function of the coordinate deltas `dx = x1 - x2`,
`dz = z1 - z2` (then `y1 - y2 = -(dx + dz)`). -/
def hdist (dx dz : Int) : Nat := (dx.natAbs + (dx + dz).natAbs + dz.natAbs) / 2

theorem heuristic_eq_hdist (c1 r1 c2 r2 : Nat) :
    heuristic c1 r1 c2 r2 = hdist (cubeX c1 r1 - cubeX c2 r2) ((r1 : Int) - (r2 : Int)) := by
  simp only [heuristic, hdist, cubeX]
  omega

theorem hdist_succ (dx dz a b : Int)
    (h : (a = 1 ∧ b = 0) ∨ (a = -1 ∧ b = 0) ∨ (a = 0 ∧ b = 1) ∨ (a = 0 ∧ b = -1) ∨
      (a = 1 ∧ b = -1) ∨ (a = -1 ∧ b = 1)) :
    hdist (dx + a) (dz + b) ≤ hdist dx dz + 1 ∧ hdist dx dz ≤ hdist (dx + a) (dz + b) + 1 := by
  rcases h with ⟨h1, h2⟩ | ⟨h1, h2⟩ | ⟨h1, h2⟩ | ⟨h1, h2⟩ | ⟨h1, h2⟩ | ⟨h1, h2⟩ <;>
    subst h1 <;> subst h2 <;> (unfold hdist; omega)

/-- Hex adjacency is a unit move in cube coordinates. -/
theorem cube_adj {a b : Coord} (h : adJ a b) :
    ∃ u v : Int, cubeX b.col b.row = cubeX a.col a.row + u ∧
      (b.row : Int) = (a.row : Int) + v ∧
      ((u = 1 ∧ v = 0) ∨ (u = -1 ∧ v = 0) ∨ (u = 0 ∧ v = 1) ∨ (u = 0 ∧ v = -1) ∨
        (u = 1 ∧ v = -1) ∨ (u = -1 ∧ v = 1)) := by
  rw [adJ, mem_getNeighbors_iff] at h
  obtain ⟨_, _, h⟩ := h
  rcases h with ⟨hp, h⟩ | ⟨hp, h⟩ <;>
    rcases h with ⟨h1, h2⟩ | ⟨h1, h2⟩ | ⟨h1, h2⟩ | ⟨h1, h2⟩ | ⟨h1, h2⟩ | ⟨h1, h2⟩
  · exact ⟨1, 0, by unfold cubeX; omega, by omega, by omega⟩
  · exact ⟨1, -1, by unfold cubeX; omega, by omega, by omega⟩
  · exact ⟨0, -1, by unfold cubeX; omega, by omega, by omega⟩
  · exact ⟨-1, 0, by unfold cubeX; omega, by omega, by omega⟩
  · exact ⟨-1, 1, by unfold cubeX; omega, by omega, by omega⟩
  · exact ⟨0, 1, by unfold cubeX; omega, by omega, by omega⟩
  · exact ⟨1, 0, by unfold cubeX; omega, by omega, by omega⟩
  · exact ⟨1, -1, by unfold cubeX; omega, by omega, by omega⟩
  · exact ⟨0, -1, by unfold cubeX; omega, by omega, by omega⟩
  · exact ⟨-1, 0, by unfold cubeX; omega, by omega, by omega⟩
  · exact ⟨-1, 1, by unfold cubeX; omega, by omega, by omega⟩
  · exact ⟨0, 1, by unfold cubeX; omega, by omega, by omega⟩

/-- One hex step changes the heuristic to any fixed target by at most 1
(consistency of the cube-distance heuristic). -/
theorem heuristic_adj {a b : Coord} (h : adJ a b) (tc tr : Nat) :
    heuristic a.col a.row tc tr ≤ heuristic b.col b.row tc tr + 1 ∧
    heuristic b.col b.row tc tr ≤ heuristic a.col a.row tc tr + 1 := by
  obtain ⟨u, v, hx, hz, huv⟩ := cube_adj h
  rw [heuristic_eq_hdist, heuristic_eq_hdist]
  have hbx : cubeX b.col b.row - cubeX tc tr = (cubeX a.col a.row - cubeX tc tr) + u := by omega
  have hbz : (b.row : Int) - (tr : Int) = ((a.row : Int) - (tr : Int)) + v := by omega
  rw [hbx, hbz]
  have := hdist_succ (cubeX a.col a.row - cubeX tc tr) ((a.row : Int) - (tr : Int)) u v huv
  exact ⟨this.2, this.1⟩

/-- Admissibility along any hex-adjacent chain: the heuristic between the two
endpoints is at most the number of steps. -/
theorem heuristic_chain_le :
    ∀ (p : List Coord) (a b : Coord), p.head? = some a → p.getLast? = some b →
      List.Chain' adJ p → heuristic a.col a.row b.col b.row + 1 ≤ p.length
  | [], a, b => by intro h; simp at h
  | [x], a, b => by
    intro hh hl _
    simp only [List.head?_cons, Option.some.injEq] at hh
    simp only [List.getLast?_singleton, Option.some.injEq] at hl
    subst hh; subst hl
    simp [heuristic_self]
  | x :: y :: rest, a, b => by
    intro hh hl hc
    simp only [List.head?_cons, Option.some.injEq] at hh
    subst hh
    rw [List.getLast?_cons_cons] at hl
    rw [List.chain'_cons] at hc
    have ih := heuristic_chain_le (y :: rest) y b rfl hl hc.2
    have hstep := heuristic_adj hc.1 b.col b.row
    simp only [List.length_cons] at ih ⊢
    omega

/-! ### Association-list lemmas -/

theorem jget_jset {α β : Type} [DecidableEq α] (m : List (α × β)) (k : α) (v : β) (k' : α) :
    jget (jset m k v) k' = if k = k' then some v else jget m k' := by
  induction m with
  | nil => simp [jset, jget]
  | cons e rest ih =>
    simp only [jset]
    by_cases he : e.1 = k
    · subst he
      simp only [if_pos rfl, jget]
      split <;> rfl
    · rw [if_neg he]
      simp only [jget, ih]
      by_cases he' : e.1 = k'
      · subst he'
        rw [if_pos rfl, if_neg (fun h => he h.symm), if_pos rfl]
      · rw [if_neg he', if_neg he']

theorem jget_jdel {α β : Type} [DecidableEq α] (m : List (α × β)) (k : α) (k' : α) :
    jget (jdel m k) k' = if k = k' then none else jget m k' := by
  induction m with
  | nil => simp [jdel, jget]
  | cons e rest ih =>
    by_cases he : e.1 = k
    · have h1 : jdel (e :: rest) k = jdel rest k := by
        simp [jdel, List.filter_cons, he]
      rw [h1, ih]
      simp only [jget]
      split_ifs <;> simp_all
    · have h1 : jdel (e :: rest) k = e :: jdel rest k := by
        simp [jdel, List.filter_cons, he]
      rw [h1]
      simp only [jget, ih]
      split_ifs <;> simp_all

theorem jget_mem {α β : Type} [DecidableEq α] {m : List (α × β)} {k : α} {v : β}
    (h : jget m k = some v) : (k, v) ∈ m := by
  induction m with
  | nil => simp [jget] at h
  | cons e rest ih =>
    simp only [jget] at h
    split at h
    · rename_i he
      cases h
      rw [← he]
      simp
    · right
      exact ih h

/-! ### Shape of `setHexType` -/

theorem any_coord_eq (o : Option Coord) (col row : Nat) :
    (o.any fun p => p.col == col && p.row == row) = true ↔ o = some ⟨col, row⟩ := by
  cases o with
  | none => simp [Option.any]
  | some p =>
    cases p
    simp [Option.any, Coord.mk.injEq]

theorem setHexType_start_eq (s : GridState) (col row : Nat) :
    setHexType s col row Tile.start =
      { grid := jset (match s.startHex with
          | some p => jdel s.grid (getHexKey p.col p.row)
          | none => s.grid) (getHexKey col row) Tile.start,
        startHex := some ⟨col, row⟩,
        endHex := if s.endHex.any (fun p => p.col == col && p.row == row) then none
          else s.endHex,
        visitedHexes := [], pathHexes := [], isSearching := false, maxVisitOrder := 0 } := by
  simp only [setHexType, clearPathfinding]
  split_ifs <;> simp_all

theorem setHexType_end_eq (s : GridState) (col row : Nat) :
    setHexType s col row Tile.«end» =
      { grid := jset (match s.endHex with
          | some p => jdel s.grid (getHexKey p.col p.row)
          | none => s.grid) (getHexKey col row) Tile.«end»,
        startHex := if s.startHex.any (fun p => p.col == col && p.row == row) then none
          else s.startHex,
        endHex := some ⟨col, row⟩,
        visitedHexes := [], pathHexes := [], isSearching := false, maxVisitOrder := 0 } := by
  simp only [setHexType, clearPathfinding]
  split_ifs <;> simp_all

theorem setHexType_wall_eq (s : GridState) (col row : Nat) :
    setHexType s col row Tile.wall =
      { grid := jset s.grid (getHexKey col row) Tile.wall,
        startHex := if s.startHex.any (fun p => p.col == col && p.row == row) then none
          else s.startHex,
        endHex := if s.endHex.any (fun p => p.col == col && p.row == row) then none
          else s.endHex,
        visitedHexes := [], pathHexes := [], isSearching := false, maxVisitOrder := 0 } := by
  simp only [setHexType, clearPathfinding]
  split_ifs <;> simp_all

theorem setHexType_standard_eq (s : GridState) (col row : Nat) :
    setHexType s col row Tile.standard =
      { grid := jdel s.grid (getHexKey col row),
        startHex := if s.startHex.any (fun p => p.col == col && p.row == row) then none
          else s.startHex,
        endHex := if s.endHex.any (fun p => p.col == col && p.row == row) then none
          else s.endHex,
        visitedHexes := [], pathHexes := [], isSearching := false, maxVisitOrder := 0 } := by
  simp only [setHexType, clearPathfinding]
  split_ifs <;> simp_all

theorem SEInv_setHexType {s : GridState} (hInv : SEInv s) (col row : Nat) (t : Tile) :
    SEInv (setHexType s col row t) := by
  cases t with
  | start =>
    rw [setHexType_start_eq]
    constructor
    · intro q hq
      cases hq
      rw [jget_jset, if_pos (show getHexKey col row = (⟨col, row⟩ : Coord) from rfl)]
    · intro k hk
      rw [jget_jset] at hk
      by_cases hkk : getHexKey col row = k
      · subst hkk
        exact rfl
      · rw [if_neg hkk] at hk
        cases hS : s.startHex with
        | none =>
          rw [hS] at hk
          have := hInv.startUnique k hk
          rw [hS] at this
          cases this
        | some p0 =>
          rw [hS, jget_jdel] at hk
          split at hk
          · cases hk
          · rename_i hne
            have := hInv.startUnique k hk
            rw [hS] at this
            cases this
            exact absurd rfl hne
    · intro q hq
      simp only at hq
      split at hq
      · cases hq
      · rename_i hcond
        have hq' := hInv.endRef q hq
        have hqne : getHexKey col row ≠ q := by
          intro h
          subst h
          exact hcond ((any_coord_eq s.endHex col row).mpr hq)
        rw [jget_jset, if_neg hqne]
        cases hS : s.startHex with
        | none => exact hq'
        | some p0 =>
          rw [jget_jdel]
          have hp0 : jget s.grid p0 = some Tile.start := hInv.startRef p0 hS
          rw [if_neg (fun h : getHexKey p0.col p0.row = q => by
            rw [show getHexKey p0.col p0.row = p0 from rfl] at h
            rw [h, hq'] at hp0
            cases hp0)]
          exact hq'
    · intro k hk
      rw [jget_jset] at hk
      by_cases hkk : getHexKey col row = k
      · rw [if_pos hkk] at hk
        cases hk
      · rw [if_neg hkk] at hk
        have hk' : jget s.grid k = some Tile.«end» := by
          cases hS : s.startHex with
          | none => rw [hS] at hk; exact hk
          | some p0 =>
            rw [hS, jget_jdel] at hk
            split at hk
            · cases hk
            · exact hk
        have hE := hInv.endUnique k hk'
        simp only
        rw [if_neg (fun hc : (s.endHex.any fun p => p.col == col && p.row == row) = true => by
          have h2 := (any_coord_eq s.endHex col row).mp hc
          rw [hE] at h2
          cases h2
          exact hkk rfl)]
        exact hE
  | «end» =>
    rw [setHexType_end_eq]
    constructor
    · intro q hq
      simp only at hq
      split at hq
      · cases hq
      · rename_i hcond
        have hq' := hInv.startRef q hq
        have hqne : getHexKey col row ≠ q := by
          intro h
          subst h
          exact hcond ((any_coord_eq s.startHex col row).mpr hq)
        rw [jget_jset, if_neg hqne]
        cases hE : s.endHex with
        | none => exact hq'
        | some p0 =>
          rw [jget_jdel]
          have hp0 : jget s.grid p0 = some Tile.«end» := hInv.endRef p0 hE
          rw [if_neg (fun h : getHexKey p0.col p0.row = q => by
            rw [show getHexKey p0.col p0.row = p0 from rfl] at h
            rw [h, hq'] at hp0
            cases hp0)]
          exact hq'
    · intro k hk
      rw [jget_jset] at hk
      by_cases hkk : getHexKey col row = k
      · rw [if_pos hkk] at hk
        cases hk
      · rw [if_neg hkk] at hk
        have hk' : jget s.grid k = some Tile.start := by
          cases hE : s.endHex with
          | none => rw [hE] at hk; exact hk
          | some p0 =>
            rw [hE, jget_jdel] at hk
            split at hk
            · cases hk
            · exact hk
        have hS := hInv.startUnique k hk'
        simp only
        rw [if_neg (fun hc : (s.startHex.any fun p => p.col == col && p.row == row) = true => by
          have h2 := (any_coord_eq s.startHex col row).mp hc
          rw [hS] at h2
          cases h2
          exact hkk rfl)]
        exact hS
    · intro q hq
      cases hq
      rw [jget_jset, if_pos (show getHexKey col row = (⟨col, row⟩ : Coord) from rfl)]
    · intro k hk
      rw [jget_jset] at hk
      by_cases hkk : getHexKey col row = k
      · subst hkk
        exact rfl
      · rw [if_neg hkk] at hk
        cases hE : s.endHex with
        | none =>
          rw [hE] at hk
          have := hInv.endUnique k hk
          rw [hE] at this
          cases this
        | some p0 =>
          rw [hE, jget_jdel] at hk
          split at hk
          · cases hk
          · rename_i hne
            have := hInv.endUnique k hk
            rw [hE] at this
            cases this
            exact absurd rfl hne
  | wall =>
    rw [setHexType_wall_eq]
    constructor
    · intro q hq
      simp only at hq
      split at hq
      · cases hq
      · rename_i hcond
        have hq' := hInv.startRef q hq
        have hqne : getHexKey col row ≠ q := by
          intro h
          subst h
          exact hcond ((any_coord_eq s.startHex col row).mpr hq)
        rw [jget_jset, if_neg hqne]
        exact hq'
    · intro k hk
      rw [jget_jset] at hk
      by_cases hkk : getHexKey col row = k
      · rw [if_pos hkk] at hk
        cases hk
      · rw [if_neg hkk] at hk
        have hS := hInv.startUnique k hk
        simp only
        rw [if_neg (fun hc : (s.startHex.any fun p => p.col == col && p.row == row) = true => by
          have h2 := (any_coord_eq s.startHex col row).mp hc
          rw [hS] at h2
          cases h2
          exact hkk rfl)]
        exact hS
    · intro q hq
      simp only at hq
      split at hq
      · cases hq
      · rename_i hcond
        have hq' := hInv.endRef q hq
        have hqne : getHexKey col row ≠ q := by
          intro h
          subst h
          exact hcond ((any_coord_eq s.endHex col row).mpr hq)
        rw [jget_jset, if_neg hqne]
        exact hq'
    · intro k hk
      rw [jget_jset] at hk
      by_cases hkk : getHexKey col row = k
      · rw [if_pos hkk] at hk
        cases hk
      · rw [if_neg hkk] at hk
        have hE := hInv.endUnique k hk
        simp only
        rw [if_neg (fun hc : (s.endHex.any fun p => p.col == col && p.row == row) = true => by
          have h2 := (any_coord_eq s.endHex col row).mp hc
          rw [hE] at h2
          cases h2
          exact hkk rfl)]
        exact hE
  | standard =>
    rw [setHexType_standard_eq]
    constructor
    · intro q hq
      simp only at hq
      split at hq
      · cases hq
      · rename_i hcond
        have hq' := hInv.startRef q hq
        have hqne : getHexKey col row ≠ q := by
          intro h
          subst h
          exact hcond ((any_coord_eq s.startHex col row).mpr hq)
        rw [jget_jdel, if_neg hqne]
        exact hq'
    · intro k hk
      rw [jget_jdel] at hk
      split at hk
      · cases hk
      · rename_i hkk
        have hS := hInv.startUnique k hk
        simp only
        rw [if_neg (fun hc : (s.startHex.any fun p => p.col == col && p.row == row) = true => by
          have h2 := (any_coord_eq s.startHex col row).mp hc
          rw [hS] at h2
          cases h2
          exact hkk rfl)]
        exact hS
    · intro q hq
      simp only at hq
      split at hq
      · cases hq
      · rename_i hcond
        have hq' := hInv.endRef q hq
        have hqne : getHexKey col row ≠ q := by
          intro h
          subst h
          exact hcond ((any_coord_eq s.endHex col row).mpr hq)
        rw [jget_jdel, if_neg hqne]
        exact hq'
    · intro k hk
      rw [jget_jdel] at hk
      split at hk
      · cases hk
      · rename_i hkk
        have hE := hInv.endUnique k hk
        simp only
        rw [if_neg (fun hc : (s.endHex.any fun p => p.col == col && p.row == row) = true => by
          have h2 := (any_coord_eq s.endHex col row).mp hc
          rw [hE] at h2
          cases h2
          exact hkk rfl)]
        exact hE

theorem SEInv_initState : SEInv initState := by
  constructor <;> intro x h <;> simp [initState, jget] at h

theorem getHexType_setHexType_same {s : GridState} (hInv : SEInv s) (col row : Nat)
    (t : Tile) (hsame : getHexType s col row = t) (c r : Nat) :
    getHexType (setHexType s col row t) c r = getHexType s c r := by
  cases t with
  | standard =>
    rw [setHexType_standard_eq]
    unfold getHexType
    simp only
    rw [jget_jdel]
    by_cases hkk : getHexKey col row = getHexKey c r
    · rw [if_pos hkk]
      unfold getHexType at hsame
      rw [← hkk]
      exact hsame.symm
    · rw [if_neg hkk]
  | wall =>
    rw [setHexType_wall_eq]
    unfold getHexType
    simp only
    rw [jget_jset]
    by_cases hkk : getHexKey col row = getHexKey c r
    · rw [if_pos hkk]
      unfold getHexType at hsame
      rw [← hkk]
      exact hsame.symm
    · rw [if_neg hkk]
  | start =>
    have hkey : jget s.grid (getHexKey col row) = some Tile.start := by
      unfold getHexType at hsame
      cases hj : jget s.grid (getHexKey col row) with
      | none => rw [hj] at hsame; exact absurd hsame (by decide)
      | some v => rw [hj] at hsame; exact congrArg some hsame
    have hS := hInv.startUnique _ hkey
    rw [setHexType_start_eq]
    have hbase : (match s.startHex with
        | some p => jdel s.grid (getHexKey p.col p.row)
        | none => s.grid) = jdel s.grid (getHexKey col row) := by rw [hS]; rfl
    unfold getHexType
    simp only
    rw [hbase, jget_jset]
    by_cases hkk : getHexKey col row = getHexKey c r
    · rw [if_pos hkk, ← hkk, hkey]
    · rw [if_neg hkk, jget_jdel, if_neg hkk]
  | «end» =>
    have hkey : jget s.grid (getHexKey col row) = some Tile.«end» := by
      unfold getHexType at hsame
      cases hj : jget s.grid (getHexKey col row) with
      | none => rw [hj] at hsame; exact absurd hsame (by decide)
      | some v => rw [hj] at hsame; exact congrArg some hsame
    have hE := hInv.endUnique _ hkey
    rw [setHexType_end_eq]
    have hbase : (match s.endHex with
        | some p => jdel s.grid (getHexKey p.col p.row)
        | none => s.grid) = jdel s.grid (getHexKey col row) := by rw [hE]; rfl
    unfold getHexType
    simp only
    rw [hbase, jget_jset]
    by_cases hkk : getHexKey col row = getHexKey c r
    · rw [if_pos hkk, ← hkk, hkey]
    · rw [if_neg hkk, jget_jdel, if_neg hkk]

theorem setHexType_clears_runstate (s : GridState) (col row : Nat) (t : Tile) :
    (setHexType s col row t).visitedHexes = [] ∧ (setHexType s col row t).pathHexes = [] ∧
    (setHexType s col row t).isSearching = false ∧ (setHexType s col row t).maxVisitOrder = 0 := by
  cases t with
  | standard => rw [setHexType_standard_eq]; exact ⟨rfl, rfl, rfl, rfl⟩
  | wall => rw [setHexType_wall_eq]; exact ⟨rfl, rfl, rfl, rfl⟩
  | start => rw [setHexType_start_eq]; exact ⟨rfl, rfl, rfl, rfl⟩
  | «end» => rw [setHexType_end_eq]; exact ⟨rfl, rfl, rfl, rfl⟩

/-- **C7**: after `setHexType`, starting from an invariant-satisfying state, the
invariant is preserved: at most one cell classifies as `start` and one as `end`,
the stored references name exactly those cells (or are `null`), and assigning a
new start/end removes the previous holder's key from the sparse grid. -/
theorem claim_C7_start_end_unique (s : GridState) (col row : Nat) (t : Tile)
    (hInv : SEInv s) :
    SEInv (setHexType s col row t) ∧
    (∀ k₁ k₂, jget (setHexType s col row t).grid k₁ = some Tile.start →
      jget (setHexType s col row t).grid k₂ = some Tile.start → k₁ = k₂) ∧
    (∀ k₁ k₂, jget (setHexType s col row t).grid k₁ = some Tile.«end» →
      jget (setHexType s col row t).grid k₂ = some Tile.«end» → k₁ = k₂) ∧
    (t = Tile.start → ∀ p, s.startHex = some p → p ≠ ⟨col, row⟩ →
      jget (setHexType s col row t).grid p = none) ∧
    (t = Tile.«end» → ∀ p, s.endHex = some p → p ≠ ⟨col, row⟩ →
      jget (setHexType s col row t).grid p = none) := by
  have hInv' := SEInv_setHexType hInv col row t
  refine ⟨hInv', ?_, ?_, ?_, ?_⟩
  · intro k₁ k₂ h1 h2
    have e1 := hInv'.startUnique k₁ h1
    have e2 := hInv'.startUnique k₂ h2
    rw [e1] at e2
    cases e2
    rfl
  · intro k₁ k₂ h1 h2
    have e1 := hInv'.endUnique k₁ h1
    have e2 := hInv'.endUnique k₂ h2
    rw [e1] at e2
    cases e2
    rfl
  · rintro rfl p hp hne
    rw [setHexType_start_eq]
    simp only
    have hbase : (match s.startHex with
        | some q => jdel s.grid (getHexKey q.col q.row)
        | none => s.grid) = jdel s.grid (getHexKey p.col p.row) := by rw [hp]
    rw [hbase, jget_jset,
      if_neg (fun h : getHexKey col row = p => hne (by rw [← h]; rfl)),
      jget_jdel, if_pos (show getHexKey p.col p.row = p from rfl)]
  · rintro rfl p hp hne
    rw [setHexType_end_eq]
    simp only
    have hbase : (match s.endHex with
        | some q => jdel s.grid (getHexKey q.col q.row)
        | none => s.grid) = jdel s.grid (getHexKey p.col p.row) := by rw [hp]
    rw [hbase, jget_jset,
      if_neg (fun h : getHexKey col row = p => hne (by rw [← h]; rfl)),
      jget_jdel, if_pos (show getHexKey p.col p.row = p from rfl)]

/-- **C8**: every `setHexType` call leaves the run state cleared (empty visited
map and path set, searching flag false, max visit order 0); a call that writes
the value the cell already has leaves the tile classification of every cell
unchanged. -/
theorem claim_C8_setHexType_clears (s : GridState) (col row : Nat) (t : Tile) :
    ((setHexType s col row t).visitedHexes = [] ∧
     (setHexType s col row t).pathHexes = [] ∧
     (setHexType s col row t).isSearching = false ∧
     (setHexType s col row t).maxVisitOrder = 0) ∧
    (SEInv s → getHexType s col row = t →
      ∀ c r, getHexType (setHexType s col row t) c r = getHexType s c r) :=
  ⟨setHexType_clears_runstate s col row t,
   fun hInv hsame c r => getHexType_setHexType_same hInv col row t hsame c r⟩

theorem claim_C7_witness :
    SEInv initState ∧
    (SEInv (setHexType initState 2 3 Tile.start) ∧
    (∀ k₁ k₂, jget (setHexType initState 2 3 Tile.start).grid k₁ = some Tile.start →
      jget (setHexType initState 2 3 Tile.start).grid k₂ = some Tile.start → k₁ = k₂) ∧
    (∀ k₁ k₂, jget (setHexType initState 2 3 Tile.start).grid k₁ = some Tile.«end» →
      jget (setHexType initState 2 3 Tile.start).grid k₂ = some Tile.«end» → k₁ = k₂) ∧
    (Tile.start = Tile.start → ∀ p, initState.startHex = some p → p ≠ ⟨2, 3⟩ →
      jget (setHexType initState 2 3 Tile.start).grid p = none) ∧
    (Tile.start = Tile.«end» → ∀ p, initState.endHex = some p → p ≠ ⟨2, 3⟩ →
      jget (setHexType initState 2 3 Tile.start).grid p = none)) :=
  ⟨SEInv_initState, claim_C7_start_end_unique initState 2 3 Tile.start SEInv_initState⟩

/-- **C8 witness**: a same-value edit on the initial state clears the run
state and preserves the tile mapping. -/
theorem claim_C8_witness :
    (setHexType initState 1 1 Tile.standard).visitedHexes = [] ∧
    (∀ c r, getHexType (setHexType initState 1 1 Tile.standard) c r =
      getHexType initState c r) :=
  ⟨(claim_C8_setHexType_clears initState 1 1 Tile.standard).1.1,
   (claim_C8_setHexType_clears initState 1 1 Tile.standard).2 SEInv_initState (by decide)⟩

set_option maxHeartbeats 4000000 in
/-- **C6**: for in-bounds coordinates, hex neighborhood is symmetric across the
even-row and odd-row direction tables. -/
theorem claim_C6_neighbor_symmetry (a b : Coord) (ha : inBounds a) (hb : inBounds b) :
    b ∈ getNeighbors a.col a.row ↔ a ∈ getNeighbors b.col b.row := by
  obtain ⟨ha1, ha2⟩ := ha
  obtain ⟨hb1, hb2⟩ := hb
  constructor <;> intro h <;> rw [mem_getNeighbors_iff] at h ⊢ <;>
    obtain ⟨h1, h2, h3⟩ := h <;>
    refine ⟨by omega, by omega, ?_⟩ <;>
    rcases h3 with ⟨hp, h3⟩ | ⟨hp, h3⟩ <;>
    rcases h3 with ⟨e1, e2⟩ | ⟨e1, e2⟩ | ⟨e1, e2⟩ | ⟨e1, e2⟩ | ⟨e1, e2⟩ | ⟨e1, e2⟩ <;>
    omega

theorem claim_C6_witness :
    inBounds ⟨0, 0⟩ ∧ inBounds ⟨1, 0⟩ ∧
    ((⟨1, 0⟩ : Coord) ∈ getNeighbors 0 0 ↔ (⟨0, 0⟩ : Coord) ∈ getNeighbors 1 0) :=
  ⟨by decide, by decide, claim_C6_neighbor_symmetry ⟨0, 0⟩ ⟨1, 0⟩ (by decide) (by decide)⟩

/-- **C4**: the heuristic is admissible (at most the length of any hex-adjacent
chain between the two points on a wall-free grid) and consistent (hex-adjacent
coordinates have heuristic values to any fixed target differing by at most 1). -/
theorem claim_C4_heuristic_admissible (a b : Coord) (ha : inBounds a) (hb : inBounds b) :
    (∀ p : List Coord, p.head? = some a → p.getLast? = some b → List.Chain' adJ p →
      heuristic a.col a.row b.col b.row + 1 ≤ p.length) ∧
    (adJ a b → ∀ t : Coord,
      heuristic a.col a.row t.col t.row ≤ heuristic b.col b.row t.col t.row + 1 ∧
      heuristic b.col b.row t.col t.row ≤ heuristic a.col a.row t.col t.row + 1) :=
  ⟨fun p hh hl hc => heuristic_chain_le p a b hh hl hc,
   fun hadj t => heuristic_adj hadj t.col t.row⟩

theorem claim_C4_witness :
    inBounds ⟨0, 0⟩ ∧ inBounds ⟨1, 0⟩ ∧
    ((∀ p : List Coord, p.head? = some ⟨0, 0⟩ → p.getLast? = some ⟨1, 0⟩ →
        List.Chain' adJ p → heuristic 0 0 1 0 + 1 ≤ p.length) ∧
      (adJ ⟨0, 0⟩ ⟨1, 0⟩ → ∀ t : Coord,
        heuristic 0 0 t.col t.row ≤ heuristic 1 0 t.col t.row + 1 ∧
        heuristic 1 0 t.col t.row ≤ heuristic 0 0 t.col t.row + 1)) :=
  ⟨by decide, by decide, claim_C4_heuristic_admissible ⟨0, 0⟩ ⟨1, 0⟩ (by decide) (by decide)⟩

theorem jhas_jset {α β : Type} [DecidableEq α] (m : List (α × β)) (k : α) (v : β) (k' : α) :
    jhas (jset m k v) k' = true ↔ k = k' ∨ jhas m k' = true := by
  unfold jhas
  rw [jget_jset]
  split
  · rename_i h
    simp [h]
  · rename_i h
    simp [h]

theorem jhas_of_jget {α β : Type} [DecidableEq α] {m : List (α × β)} {k : α} {v : β}
    (h : jget m k = some v) : jhas m k = true := by
  unfold jhas
  rw [h]
  rfl

theorem jget_of_jhas {α β : Type} [DecidableEq α] {m : List (α × β)} {k : α}
    (h : jhas m k = true) : ∃ v, jget m k = some v := by
  unfold jhas at h
  cases hj : jget m k with
  | none => rw [hj] at h; cases h
  | some v => exact ⟨v, rfl⟩

theorem jset_append_of_not_has {α β : Type} [DecidableEq α] {m : List (α × β)} {k : α}
    (h : jhas m k = false) (v : β) : jset m k v = m ++ [(k, v)] := by
  induction m with
  | nil => rfl
  | cons e rest ih =>
    unfold jhas jget at h
    split at h
    · cases h
    · rename_i hne
      show jset (e :: rest) k v = e :: (rest ++ [(k, v)])
      unfold jset
      rw [if_neg hne]
      rw [ih h]

theorem jhas_false_iff {α β : Type} [DecidableEq α] (m : List (α × β)) (k : α) :
    jhas m k = false ↔ jget m k = none := by
  unfold jhas
  cases jget m k <;> simp


theorem VisitInv_init : VisitInv ⟨[(k₀, none)], [], 0, 0, false⟩ := by
  refine ⟨rfl, rfl, List.nodup_nil, rfl⟩

theorem jhas_eq_mem_keys {α β : Type} [DecidableEq α] (m : List (α × β)) (k : α) :
    jhas m k = true ↔ k ∈ m.map Prod.fst := by
  induction m with
  | nil => simp [jhas, jget]
  | cons e rest ih =>
    unfold jhas jget
    split
    · rename_i h
      simp [← h]
    · rename_i h
      simp only [List.map_cons, List.mem_cons]
      rw [← ih]
      unfold jhas
      constructor
      · intro hh
        right
        exact hh
      · rintro (hh | hh)
        · exact absurd hh.symm h
        · exact hh

/-- Visiting a fresh key extends the visited list by one entry carrying the
next order. -/
theorem VisitInv_step {rr : RunResult} (hInv : VisitInv rr) (ck : Coord)
    (hfresh : jhas rr.visited ck = false) (cf : List (Coord × Option Coord)) (f : Bool) :
    VisitInv ⟨cf, jset rr.visited ck rr.stepCount, rr.stepCount + 1, rr.stepCount, f⟩ := by
  obtain ⟨h1, h2, h3, h4⟩ := hInv
  have happ := jset_append_of_not_has hfresh rr.stepCount
  refine ⟨?_, ?_, ?_, ?_⟩ <;> simp only [happ]
  · rw [List.map_append, List.length_append, h1, h2]
    simp [List.range_succ]
  · simp [h2]
  · rw [List.map_append]
    simp only [List.map_cons, List.map_nil]
    rw [List.nodup_append]
    refine ⟨h3, List.nodup_singleton ck, ?_⟩
    intro a ha hb
    simp only [List.mem_singleton] at hb
    subst hb
    rw [← jhas_eq_mem_keys] at ha
    rw [ha] at hfresh
    cases hfresh
  · simp [h2]

/-! ### Per-loop monotonicity of the visited map -/

theorem bfsLoop_visited_mono (g : List (Coord × Tile)) (endKey : Coord)
    (cancel : Nat → Bool) :
    ∀ (fuel : Nat) (queue : List Coord) (rr rr' : RunResult),
      bfsLoop g endKey cancel fuel queue rr = some rr' →
      ∀ k, jhas rr.visited k = true → jhas rr'.visited k = true := by
  intro fuel
  induction fuel with
  | zero => intro queue rr rr' h; cases h
  | succ n ih =>
    intro queue rr rr' h k hk
    match queue with
    | [] =>
      simp only [bfsLoop] at h
      cases h
      exact hk
    | current :: rest =>
      simp only [bfsLoop] at h
      split at h
      · cases h
        exact (jhas_jset _ _ _ _).mpr (Or.inr hk)
      · split at h
        · cases h
          exact (jhas_jset _ _ _ _).mpr (Or.inr hk)
        · exact ih _ _ _ h k ((jhas_jset _ _ _ _).mpr (Or.inr hk))

theorem dfsLoop_visited_mono (g : List (Coord × Tile)) (endKey : Coord)
    (cancel : Nat → Bool) :
    ∀ (fuel : Nat) (stack : List Coord) (rr rr' : RunResult),
      dfsLoop g endKey cancel fuel stack rr = some rr' →
      ∀ k, jhas rr.visited k = true → jhas rr'.visited k = true := by
  intro fuel
  induction fuel with
  | zero => intro stack rr rr' h; cases h
  | succ n ih =>
    intro stack rr rr' h k hk
    match stack with
    | [] =>
      simp only [dfsLoop] at h
      cases h
      exact hk
    | current :: rest =>
      simp only [dfsLoop] at h
      split at h
      · exact ih _ _ _ h k hk
      · split at h
        · cases h
          exact (jhas_jset _ _ _ _).mpr (Or.inr hk)
        · split at h
          · cases h
            exact (jhas_jset _ _ _ _).mpr (Or.inr hk)
          · exact ih _ _ _ h k ((jhas_jset _ _ _ _).mpr (Or.inr hk))

theorem astarLoop_visited_mono (g : List (Coord × Tile)) (endHex endKey : Coord)
    (cancel : Nat → Bool) :
    ∀ (fuel : Nat) (openSet : List Coord) (gScore fScore : List (Coord × Nat))
      (rr rr' : RunResult),
      astarLoop g endHex endKey cancel fuel openSet gScore fScore rr = some rr' →
      ∀ k, jhas rr.visited k = true → jhas rr'.visited k = true := by
  intro fuel
  induction fuel with
  | zero => intro o gs fs rr rr' h; cases h
  | succ n ih =>
    intro o gs fs rr rr' h k hk
    simp only [astarLoop] at h
    split at h
    · cases h
      exact hk
    · split at h
      · exact ih _ _ _ _ _ h k hk
      · split at h
        · cases h
          exact (jhas_jset _ _ _ _).mpr (Or.inr hk)
        · split at h
          · cases h
            exact (jhas_jset _ _ _ _).mpr (Or.inr hk)
          · exact ih _ _ _ _ _ h k ((jhas_jset _ _ _ _).mpr (Or.inr hk))

theorem greedyLoop_visited_mono (g : List (Coord × Tile)) (endHex endKey : Coord)
    (cancel : Nat → Bool) :
    ∀ (fuel : Nat) (openSet : List Coord) (rr rr' : RunResult),
      greedyLoop g endHex endKey cancel fuel openSet rr = some rr' →
      ∀ k, jhas rr.visited k = true → jhas rr'.visited k = true := by
  intro fuel
  induction fuel with
  | zero => intro o rr rr' h; cases h
  | succ n ih =>
    intro o rr rr' h k hk
    simp only [greedyLoop] at h
    split at h
    · cases h
      exact hk
    · split at h
      · exact ih _ _ _ h k hk
      · split at h
        · cases h
          exact (jhas_jset _ _ _ _).mpr (Or.inr hk)
        · split at h
          · cases h
            exact (jhas_jset _ _ _ _).mpr (Or.inr hk)
          · exact ih _ _ _ h k ((jhas_jset _ _ _ _).mpr (Or.inr hk))

/-! ### `found` implies the end was visited -/

theorem bfsLoop_found_end (g : List (Coord × Tile)) (endKey : Coord)
    (cancel : Nat → Bool) :
    ∀ (fuel : Nat) (queue : List Coord) (rr rr' : RunResult),
      bfsLoop g endKey cancel fuel queue rr = some rr' →
      rr.found = false → rr'.found = true → jhas rr'.visited endKey = true := by
  intro fuel
  induction fuel with
  | zero => intro queue rr rr' h; cases h
  | succ n ih =>
    intro queue rr rr' h hf hf'
    match queue with
    | [] =>
      simp only [bfsLoop] at h
      cases h
      rw [hf] at hf'
      cases hf'
    | current :: rest =>
      simp only [bfsLoop] at h
      split at h
      · cases h
        rw [hf] at hf'
        cases hf'
      · split at h
        · rename_i hend
          cases h
          exact (jhas_jset _ _ _ _).mpr (Or.inl hend)
        · exact ih _ _ _ h hf hf'

theorem dfsLoop_found_end (g : List (Coord × Tile)) (endKey : Coord)
    (cancel : Nat → Bool) :
    ∀ (fuel : Nat) (stack : List Coord) (rr rr' : RunResult),
      dfsLoop g endKey cancel fuel stack rr = some rr' →
      rr.found = false → rr'.found = true → jhas rr'.visited endKey = true := by
  intro fuel
  induction fuel with
  | zero => intro stack rr rr' h; cases h
  | succ n ih =>
    intro stack rr rr' h hf hf'
    match stack with
    | [] =>
      simp only [dfsLoop] at h
      cases h
      rw [hf] at hf'
      cases hf'
    | current :: rest =>
      simp only [dfsLoop] at h
      split at h
      · exact ih _ _ _ h hf hf'
      · split at h
        · cases h
          rw [hf] at hf'
          cases hf'
        · split at h
          · rename_i hend
            cases h
            exact (jhas_jset _ _ _ _).mpr (Or.inl hend)
          · exact ih _ _ _ h hf hf'

theorem astarLoop_found_end (g : List (Coord × Tile)) (endHex endKey : Coord)
    (cancel : Nat → Bool) :
    ∀ (fuel : Nat) (openSet : List Coord) (gScore fScore : List (Coord × Nat))
      (rr rr' : RunResult),
      astarLoop g endHex endKey cancel fuel openSet gScore fScore rr = some rr' →
      rr.found = false → rr'.found = true → jhas rr'.visited endKey = true := by
  intro fuel
  induction fuel with
  | zero => intro o gs fs rr rr' h; cases h
  | succ n ih =>
    intro o gs fs rr rr' h hf hf'
    simp only [astarLoop] at h
    split at h
    · cases h
      rw [hf] at hf'
      cases hf'
    · split at h
      · exact ih _ _ _ _ _ h hf hf'
      · split at h
        · cases h
          rw [hf] at hf'
          cases hf'
        · split at h
          · rename_i hend
            cases h
            exact (jhas_jset _ _ _ _).mpr (Or.inl hend)
          · exact ih _ _ _ _ _ h hf hf'

theorem greedyLoop_found_end (g : List (Coord × Tile)) (endHex endKey : Coord)
    (cancel : Nat → Bool) :
    ∀ (fuel : Nat) (openSet : List Coord) (rr rr' : RunResult),
      greedyLoop g endHex endKey cancel fuel openSet rr = some rr' →
      rr.found = false → rr'.found = true → jhas rr'.visited endKey = true := by
  intro fuel
  induction fuel with
  | zero => intro o rr rr' h; cases h
  | succ n ih =>
    intro o rr rr' h hf hf'
    simp only [greedyLoop] at h
    split at h
    · cases h
      rw [hf] at hf'
      cases hf'
    · split at h
      · exact ih _ _ _ h hf hf'
      · split at h
        · cases h
          rw [hf] at hf'
          cases hf'
        · split at h
          · rename_i hend
            cases h
            exact (jhas_jset _ _ _ _).mpr (Or.inl hend)
          · exact ih _ _ _ h hf hf'

/-! ### VisitInv preservation per loop -/

theorem dfsLoop_visitInv (g : List (Coord × Tile)) (endKey : Coord)
    (cancel : Nat → Bool) :
    ∀ (fuel : Nat) (stack : List Coord) (rr rr' : RunResult),
      VisitInv rr → dfsLoop g endKey cancel fuel stack rr = some rr' →
      VisitInv rr' := by
  intro fuel
  induction fuel with
  | zero => intro stack rr rr' _ h; cases h
  | succ n ih =>
    intro stack rr rr' hInv h
    match stack with
    | [] =>
      simp only [dfsLoop] at h
      cases h
      exact hInv
    | current :: rest =>
      simp only [dfsLoop] at h
      split at h
      · exact ih _ _ _ hInv h
      · rename_i hfresh
        have hfresh' : jhas rr.visited (getHexKey current.col current.row) = false := by
          cases hb : jhas rr.visited (getHexKey current.col current.row)
          · rfl
          · exact absurd hb hfresh
        have hstep := VisitInv_step hInv (getHexKey current.col current.row) hfresh'
        split at h
        · cases h
          exact hstep rr.cameFrom rr.found
        · split at h
          · cases h
            exact hstep rr.cameFrom true
          · exact ih _ _ _ (hstep _ rr.found) h

theorem astarLoop_visitInv (g : List (Coord × Tile)) (endHex endKey : Coord)
    (cancel : Nat → Bool) :
    ∀ (fuel : Nat) (openSet : List Coord) (gScore fScore : List (Coord × Nat))
      (rr rr' : RunResult),
      VisitInv rr → astarLoop g endHex endKey cancel fuel openSet gScore fScore rr = some rr' →
      VisitInv rr' := by
  intro fuel
  induction fuel with
  | zero => intro o gs fs rr rr' _ h; cases h
  | succ n ih =>
    intro o gs fs rr rr' hInv h
    simp only [astarLoop] at h
    split at h
    · cases h
      exact hInv
    · split at h
      · exact ih _ _ _ _ _ hInv h
      · rename_i current rest _ hfresh
        have hfresh' : jhas rr.visited (getHexKey current.col current.row) = false := by
          cases hb : jhas rr.visited (getHexKey current.col current.row)
          · rfl
          · exact absurd hb hfresh
        have hstep := VisitInv_step hInv (getHexKey current.col current.row) hfresh'
        split at h
        · cases h
          exact hstep rr.cameFrom rr.found
        · split at h
          · cases h
            exact hstep rr.cameFrom true
          · exact ih _ _ _ _ _ (hstep _ rr.found) h

theorem greedyLoop_visitInv (g : List (Coord × Tile)) (endHex endKey : Coord)
    (cancel : Nat → Bool) :
    ∀ (fuel : Nat) (openSet : List Coord) (rr rr' : RunResult),
      VisitInv rr → greedyLoop g endHex endKey cancel fuel openSet rr = some rr' →
      VisitInv rr' := by
  intro fuel
  induction fuel with
  | zero => intro o rr rr' _ h; cases h
  | succ n ih =>
    intro o rr rr' hInv h
    simp only [greedyLoop] at h
    split at h
    · cases h
      exact hInv
    · split at h
      · exact ih _ _ _ hInv h
      · rename_i current rest _ hfresh
        have hfresh' : jhas rr.visited (getHexKey current.col current.row) = false := by
          cases hb : jhas rr.visited (getHexKey current.col current.row)
          · rfl
          · exact absurd hb hfresh
        have hstep := VisitInv_step hInv (getHexKey current.col current.row) hfresh'
        split at h
        · cases h
          exact hstep rr.cameFrom rr.found
        · split at h
          · cases h
            exact hstep rr.cameFrom true
          · exact ih _ _ _ (hstep _ rr.found) h

/-! ### BFS queue invariant (each key is enqueued at most once) -/

theorem getHexKey_self (c : Coord) : getHexKey c.col c.row = c := rfl

theorem bfsExpand_inv (g : List (Coord × Tile)) (ck : Coord) (V : List Coord) :
    ∀ (ns : List Coord) (cf : List (Coord × Option Coord)) (q : List Coord),
      (V ++ q).Nodup →
      (∀ k ∈ V, jhas cf k = true) →
      (∀ c ∈ q, jhas cf c = true) →
      (V ++ (bfsExpand g ck ns cf q).2).Nodup ∧
      (∀ k ∈ V, jhas (bfsExpand g ck ns cf q).1 k = true) ∧
      (∀ c ∈ (bfsExpand g ck ns cf q).2, jhas (bfsExpand g ck ns cf q).1 c = true) := by
  intro ns
  induction ns with
  | nil => intro cf q h1 h2 h3; exact ⟨h1, h2, h3⟩
  | cons nb rest ih =>
    intro cf q h1 h2 h3
    simp only [bfsExpand]
    split
    · exact ih cf q h1 h2 h3
    · split
      · exact ih cf q h1 h2 h3
      · rename_i hnot _
        apply ih
        · rw [← List.append_assoc]
          rw [List.nodup_append]
          refine ⟨h1, List.nodup_singleton _, ?_⟩
          intro a ha hb
          simp only [List.mem_singleton] at hb
          subst hb
          rcases List.mem_append.mp ha with hv | hq
          · exact hnot (h2 _ hv)
          · exact hnot (h3 _ hq)
        · intro k hk
          exact (jhas_jset _ _ _ _).mpr (Or.inr (h2 k hk))
        · intro c hc
          rcases List.mem_append.mp hc with hq | hn
          · exact (jhas_jset _ _ _ _).mpr (Or.inr (h3 c hq))
          · simp only [List.mem_singleton] at hn
            subst hn
            exact (jhas_jset _ _ _ _).mpr (Or.inl rfl)


theorem bfsLoop_visitInv (g : List (Coord × Tile)) (endKey : Coord)
    (cancel : Nat → Bool) :
    ∀ (fuel : Nat) (queue : List Coord) (rr rr' : RunResult),
      BfsInv rr queue → bfsLoop g endKey cancel fuel queue rr = some rr' →
      VisitInv rr' := by
  intro fuel
  induction fuel with
  | zero => intro queue rr rr' _ h; cases h
  | succ n ih =>
    intro queue rr rr' hInv h
    obtain ⟨hV, hN, hC, hQ⟩ := hInv
    match queue with
    | [] =>
      simp only [bfsLoop] at h
      cases h
      exact hV
    | current :: rest =>
      have hfreshmem : current ∉ rr.visited.map Prod.fst := by
        intro hmem
        have hd := (List.nodup_append.mp hN).2.2
        exact hd hmem (List.mem_cons_self current rest)
      have hfresh : jhas rr.visited (getHexKey current.col current.row) = false := by
        cases hb : jhas rr.visited (getHexKey current.col current.row)
        · rfl
        · exact absurd ((jhas_eq_mem_keys _ _).mp hb) hfreshmem
      have hstep := VisitInv_step hV (getHexKey current.col current.row) hfresh
      simp only [bfsLoop] at h
      split at h
      · cases h
        exact hstep rr.cameFrom rr.found
      · split at h
        · cases h
          exact hstep rr.cameFrom true
        · -- recursive case: rebuild BfsInv for the expanded state
          have hkeys : (jset rr.visited (getHexKey current.col current.row)
              rr.stepCount).map Prod.fst = rr.visited.map Prod.fst ++ [current] := by
            rw [jset_append_of_not_has hfresh]
            simp [getHexKey_self]
          have hN' : ((rr.visited.map Prod.fst ++ [current]) ++ rest).Nodup := by
            rw [List.append_assoc, List.singleton_append]
            exact hN
          have hexp := bfsExpand_inv g (getHexKey current.col current.row)
            (rr.visited.map Prod.fst ++ [current])
            (getNeighbors current.col current.row) rr.cameFrom rest hN'
            (by
              intro k hk
              rcases List.mem_append.mp hk with hv | hc
              · exact hC k hv
              · simp only [List.mem_singleton] at hc
                rw [hc]
                exact hQ current (List.mem_cons_self current rest))
            (by
              intro c hc
              exact hQ c (List.mem_cons_of_mem current hc))
          refine ih _ _ _ ⟨hstep _ rr.found, ?_, ?_, ?_⟩ h
          · show ((jset rr.visited (getHexKey current.col current.row)
              rr.stepCount).map Prod.fst ++ _).Nodup
            rw [hkeys]
            exact hexp.1
          · show ∀ k ∈ (jset rr.visited (getHexKey current.col current.row)
              rr.stepCount).map Prod.fst, _
            rw [hkeys]
            exact hexp.2.1
          · exact hexp.2.2

/-! ### Nonemptiness of the visited map after a run -/

theorem jget_singleton_self {α β : Type} [DecidableEq α] (k : α) (v : β) :
    jget [(k, v)] k = some v := by
  unfold jget
  rw [if_pos rfl]

theorem jhas_ne_nil {α β : Type} [DecidableEq α] {m : List (α × β)} {k : α}
    (h : jhas m k = true) : m ≠ [] := by
  intro hnil
  subst hnil
  cases h

theorem sortByF_eq_nil {fScore : List (Coord × Nat)} {l : List Coord}
    (h : sortByF fScore l = []) : l = [] := by
  have hp := List.perm_insertionSort (fun a b => fLe fScore a b = true) l
  rw [sortByF] at h
  rw [h] at hp
  exact hp.symm.eq_nil

theorem sortByH_eq_nil {ec er : Nat} {l : List Coord}
    (h : sortByH ec er l = []) : l = [] := by
  have hp := List.perm_insertionSort (fun a b => greedyLe ec er a b = true) l
  rw [sortByH] at h
  rw [h] at hp
  exact hp.symm.eq_nil

theorem bfsLoop_head_visited (g : List (Coord × Tile)) (endKey : Coord)
    (cancel : Nat → Bool) (n : Nat) (current : Coord) (rest : List Coord)
    (rr rr' : RunResult)
    (h : bfsLoop g endKey cancel (n + 1) (current :: rest) rr = some rr') :
    jhas rr'.visited (getHexKey current.col current.row) = true := by
  simp only [bfsLoop] at h
  split at h
  · cases h
    exact (jhas_jset _ _ _ _).mpr (Or.inl rfl)
  · split at h
    · cases h
      exact (jhas_jset _ _ _ _).mpr (Or.inl rfl)
    · exact bfsLoop_visited_mono g endKey cancel n _ _ _ h _
        ((jhas_jset _ _ _ _).mpr (Or.inl rfl))

theorem dfsLoop_head_visited (g : List (Coord × Tile)) (endKey : Coord)
    (cancel : Nat → Bool) (n : Nat) (current : Coord) (rest : List Coord)
    (rr rr' : RunResult)
    (h : dfsLoop g endKey cancel (n + 1) (current :: rest) rr = some rr')
    (hfresh : jhas rr.visited (getHexKey current.col current.row) = false) :
    jhas rr'.visited (getHexKey current.col current.row) = true := by
  simp only [dfsLoop] at h
  split at h
  · rename_i hh
    rw [hfresh] at hh
    cases hh
  · split at h
    · cases h
      exact (jhas_jset _ _ _ _).mpr (Or.inl rfl)
    · split at h
      · cases h
        exact (jhas_jset _ _ _ _).mpr (Or.inl rfl)
      · exact dfsLoop_visited_mono g endKey cancel n _ _ _ h _
          ((jhas_jset _ _ _ _).mpr (Or.inl rfl))

theorem astarLoop_ne_nil (g : List (Coord × Tile)) (endHex endKey : Coord)
    (cancel : Nat → Bool) (n : Nat) (openSet : List Coord)
    (gScore fScore : List (Coord × Nat)) (rr rr' : RunResult)
    (hne : openSet ≠ [])
    (h : astarLoop g endHex endKey cancel (n + 1) openSet gScore fScore rr = some rr') :
    ∃ c, jhas rr'.visited c = true := by
  simp only [astarLoop] at h
  split at h
  · rename_i hsort
    exact absurd (sortByF_eq_nil hsort) hne
  · rename_i current rest hsort
    split at h
    · rename_i hvis
      exact ⟨getHexKey current.col current.row,
        astarLoop_visited_mono g endHex endKey cancel n _ _ _ _ _ h _ hvis⟩
    · split at h
      · cases h
        exact ⟨getHexKey current.col current.row, (jhas_jset _ _ _ _).mpr (Or.inl rfl)⟩
      · split at h
        · cases h
          exact ⟨getHexKey current.col current.row, (jhas_jset _ _ _ _).mpr (Or.inl rfl)⟩
        · exact ⟨getHexKey current.col current.row,
            astarLoop_visited_mono g endHex endKey cancel n _ _ _ _ _ h _
              ((jhas_jset _ _ _ _).mpr (Or.inl rfl))⟩

theorem greedyLoop_ne_nil (g : List (Coord × Tile)) (endHex endKey : Coord)
    (cancel : Nat → Bool) (n : Nat) (openSet : List Coord) (rr rr' : RunResult)
    (hne : openSet ≠ [])
    (h : greedyLoop g endHex endKey cancel (n + 1) openSet rr = some rr') :
    ∃ c, jhas rr'.visited c = true := by
  simp only [greedyLoop] at h
  split at h
  · rename_i hsort
    exact absurd (sortByH_eq_nil hsort) hne
  · rename_i current rest hsort
    split at h
    · rename_i hvis
      exact ⟨getHexKey current.col current.row,
        greedyLoop_visited_mono g endHex endKey cancel n _ _ _ h _ hvis⟩
    · split at h
      · cases h
        exact ⟨getHexKey current.col current.row, (jhas_jset _ _ _ _).mpr (Or.inl rfl)⟩
      · split at h
        · cases h
          exact ⟨getHexKey current.col current.row, (jhas_jset _ _ _ _).mpr (Or.inl rfl)⟩
        · exact ⟨getHexKey current.col current.row,
            greedyLoop_visited_mono g endHex endKey cancel n _ _ _ h _
              ((jhas_jset _ _ _ _).mpr (Or.inl rfl))⟩

/-! ### Decomposition of a completed `runPathfinding` call -/

theorem runPathfinding_some_elim {alg : Algorithm} {cancel : Nat → Bool}
    {s s' : GridState} {a b : Coord}
    (hS : s.startHex = some a) (hE : s.endHex = some b)
    (h : runPathfinding alg cancel s = some s') :
    ∃ rr : RunResult, runAlgorithm alg cancel s.grid a b = some rr ∧
      s'.grid = s.grid ∧ s'.startHex = some a ∧ s'.endHex = some b ∧
      s'.visitedHexes = rr.visited ∧ s'.maxVisitOrder = rr.maxVisit ∧
      s'.isSearching = false ∧
      (rr.found = false → s'.pathHexes = []) ∧
      (rr.found = true → walkPath rr.cameFrom (rr.cameFrom.length + 1)
        (getHexKey b.col b.row) [] = some s'.pathHexes) := by
  unfold runPathfinding at h
  rw [hS, hE] at h
  simp only at h
  split at h
  · cases h
  · rename_i rr hrr
    refine ⟨rr, hrr, ?_⟩
    split at h
    · rename_i hfound
      split at h
      · cases h
      · rename_i ph heq
        cases h
        refine ⟨rfl, hS, hE, rfl, rfl, rfl, ?_, fun _ => heq⟩
        intro hf
        rw [hfound] at hf
        cases hf
    · rename_i hnf
      cases h
      exact ⟨rfl, hS, hE, rfl, rfl, rfl, fun _ => rfl, fun hf => absurd hf hnf⟩

/-- **C10**: a pathfinding run never writes the tile map or the start/end
references, for any algorithm and any cancellation timing. -/
theorem claim_C10_run_frame (alg : Algorithm) (cancel : Nat → Bool) (s s' : GridState)
    (h : runPathfinding alg cancel s = some s') :
    s'.grid = s.grid ∧ s'.startHex = s.startHex ∧ s'.endHex = s.endHex := by
  cases hS : s.startHex with
  | none =>
    unfold runPathfinding at h
    rw [hS] at h
    cases hE : s.endHex <;> rw [hE] at h <;> (cases h; exact ⟨rfl, hS, hE⟩)
  | some a =>
    cases hE : s.endHex with
    | none =>
      unfold runPathfinding at h
      rw [hS, hE] at h
      cases h
      exact ⟨rfl, hS, hE⟩
    | some b =>
      obtain ⟨rr, _, hg, hsh, heh, _⟩ := runPathfinding_some_elim hS hE h
      exact ⟨hg, hsh, heh⟩



theorem claim_C10_witness :
    runPathfinding .bfs (fun _ => false) wState = some wRunOut ∧
    (wRunOut.grid = wState.grid ∧ wRunOut.startHex = wState.startHex ∧
      wRunOut.endHex = wState.endHex) :=
  ⟨rfl, claim_C10_run_frame .bfs (fun _ => false) wState wRunOut rfl⟩

/-- **C9**: if a completed run did not finalize the end coordinate (in
particular, when a cancellation was observed at a check before the end was
finalized, the loop breaks and the end is never finalized), the run ends with
the searching flag false and an empty path set, while the partial visit data
recorded so far is retained (the visited map is the recorded, non-empty data —
no rollback). -/
theorem claim_C9_cancellation (alg : Algorithm) (cancel : Nat → Bool)
    (s s' : GridState) (a b : Coord)
    (hS : s.startHex = some a) (hE : s.endHex = some b)
    (h : runPathfinding alg cancel s = some s')
    (hnotend : jhas s'.visitedHexes (getHexKey b.col b.row) = false) :
    s'.isSearching = false ∧ s'.pathHexes = [] ∧ s'.visitedHexes ≠ [] := by
  obtain ⟨rr, hrr, hg, hsh, heh, hvis, hmax, hsearch, hnf, hf⟩ :=
    runPathfinding_some_elim hS hE h
  have hra := hrr
  unfold runAlgorithm at hra
  refine ⟨hsearch, ?_, ?_⟩
  · cases hfound : rr.found with
    | false => exact hnf hfound
    | true =>
      have hend : jhas rr.visited (getHexKey b.col b.row) = true := by
        cases alg <;> simp only at hra
        · exact bfsLoop_found_end _ _ _ _ _ _ _ hra rfl hfound
        · exact dfsLoop_found_end _ _ _ _ _ _ _ hra rfl hfound
        · exact astarLoop_found_end _ _ _ _ _ _ _ _ _ _ hra rfl hfound
        · exact greedyLoop_found_end _ _ _ _ _ _ _ _ hra rfl hfound
      rw [hvis, hend] at hnotend
      cases hnotend
  · have hx : ∃ c, jhas rr.visited c = true := by
      cases alg <;> simp only at hra
      · exact ⟨_, bfsLoop_head_visited _ _ _ _ _ _ _ _ hra⟩
      · exact ⟨_, dfsLoop_head_visited _ _ _ _ _ _ _ _ hra rfl⟩
      · exact astarLoop_ne_nil _ _ _ _ _ _ _ _ _ _ (by simp) hra
      · exact greedyLoop_ne_nil _ _ _ _ _ _ _ _ (by simp) hra
    obtain ⟨c, hc⟩ := hx
    rw [hvis]
    exact jhas_ne_nil hc


theorem claim_C9_witness :
    (wState.startHex = some ⟨0, 0⟩ ∧ wState.endHex = some ⟨0, 1⟩ ∧
      runPathfinding .bfs (fun _ => true) wState = some wCancelOut ∧
      jhas wCancelOut.visitedHexes (getHexKey 0 1) = false) ∧
    (wCancelOut.isSearching = false ∧ wCancelOut.pathHexes = [] ∧
      wCancelOut.visitedHexes ≠ []) :=
  ⟨⟨rfl, rfl, rfl, rfl⟩,
   claim_C9_cancellation .bfs (fun _ => true) wState wCancelOut ⟨0, 0⟩ ⟨0, 1⟩
     rfl rfl rfl rfl⟩

/-- **C3**: in any completed run, the recorded visit orders are exactly
`0, 1, 2, ...` in visitation (insertion) order with no gaps, repeats, or
repeated coordinates, and the tracked maximum equals the last assigned order. -/
theorem claim_C3_visit_order (alg : Algorithm) (cancel : Nat → Bool)
    (s s' : GridState) (a b : Coord)
    (hS : s.startHex = some a) (hE : s.endHex = some b)
    (h : runPathfinding alg cancel s = some s') :
    s'.visitedHexes.map Prod.snd = List.range s'.visitedHexes.length ∧
    (s'.visitedHexes.map Prod.fst).Nodup ∧
    s'.visitedHexes ≠ [] ∧
    s'.maxVisitOrder = s'.visitedHexes.length - 1 := by
  obtain ⟨rr, hrr, hg, hsh, heh, hvis, hmax, _⟩ := runPathfinding_some_elim hS hE h
  have hra := hrr
  unfold runAlgorithm at hra
  have hVI : VisitInv rr := by
    cases alg <;> simp only at hra
    · refine bfsLoop_visitInv _ _ _ _ _ _ _ ⟨VisitInv_init, ?_, ?_, ?_⟩ hra
      · simp
      · intro k hk
        simp at hk
      · intro c hc
        simp only [List.mem_singleton] at hc
        rw [hc]
        exact jhas_of_jget (jget_singleton_self _ _)
    · exact dfsLoop_visitInv _ _ _ _ _ _ _ VisitInv_init hra
    · exact astarLoop_visitInv _ _ _ _ _ _ _ _ _ _ VisitInv_init hra
    · exact greedyLoop_visitInv _ _ _ _ _ _ _ _ VisitInv_init hra
  have hx : ∃ c, jhas rr.visited c = true := by
    cases alg <;> simp only at hra
    · exact ⟨_, bfsLoop_head_visited _ _ _ _ _ _ _ _ hra⟩
    · exact ⟨_, dfsLoop_head_visited _ _ _ _ _ _ _ _ hra rfl⟩
    · exact astarLoop_ne_nil _ _ _ _ _ _ _ _ _ _ (by simp) hra
    · exact greedyLoop_ne_nil _ _ _ _ _ _ _ _ (by simp) hra
  obtain ⟨h1, h2, h3, h4⟩ := hVI
  obtain ⟨c, hc⟩ := hx
  rw [hvis, hmax]
  exact ⟨h1, h3, jhas_ne_nil hc, h4⟩

theorem claim_C3_witness :
    (wState.startHex = some ⟨0, 0⟩ ∧ wState.endHex = some ⟨0, 1⟩ ∧
      runPathfinding .bfs (fun _ => false) wState = some wRunOut) ∧
    (wRunOut.visitedHexes.map Prod.snd = List.range wRunOut.visitedHexes.length ∧
      (wRunOut.visitedHexes.map Prod.fst).Nodup ∧
      wRunOut.visitedHexes ≠ [] ∧
      wRunOut.maxVisitOrder = wRunOut.visitedHexes.length - 1) :=
  ⟨⟨rfl, rfl, rfl⟩,
   claim_C3_visit_order .bfs (fun _ => false) wState wRunOut ⟨0, 0⟩ ⟨0, 1⟩ rfl rfl rfl⟩

end Hexham
